import Mathlib

/-!
# Kubelet checkpoint manager (`pkg/kubelet/checkpoint/checkpoint.go`)

A shallow embedding of the checkpoint manager and of the two Go standard
library routines it relies on (`strings.Split` and `path.Join`), followed by
the properties of the coordination protocol.

Conventions of the embedding:

* a Go `string` is a Lean `String`; the byte-level routines of the standard
  library work on its list of characters (the only bytes they inspect are the
  ASCII characters `/`, `.` and `,`, which are single bytes in UTF-8);
* a Go `map[K]V` is an association list with at most one entry per key;
* a `*checkpoint` is an address into a heap of records, a `chan struct{}` is
  a channel identifier handed out by an allocation counter;
* an operation that can block on an unbuffered channel is run against a
  description of its peers: which channels some other goroutine eventually
  sends on or receives from, and what the other goroutines do to the registry
  while the operation is parked on a channel; it returns the state it reached,
  the events it performed, and whether it returned or is blocked forever.
-/

namespace Kubelet

/-! ## Go standard library: `strings` -/

namespace strings

/-- Go `strings.IndexByte(s, c)`: index of the first `c` in `s`, or `none`
(Go: `-1`) when there is none. -/
def IndexByte : List Char → Char → Option Nat
  | [], _ => none
  | x :: xs, c => if x = c then some 0 else (IndexByte xs c).map (· + 1)

/-- Go `strings.Count(s, sep)` for a one-byte separator. -/
def Count : List Char → Char → Nat
  | [], _ => 0
  | x :: xs, c => (if x = c then 1 else 0) + Count xs c

/-- The loop of Go `strings.genSplit` for a one-byte separator and
`sepSave = 0`:
```go
for i < n {
    m := Index(s, sep)
    if m < 0 { break }
    a[i] = s[:m+sepSave]
    s = s[m+len(sep):]
    i++
}
a[i] = s
return a[:i+1]
```
The first argument is `n - i`, the number of iterations left. -/
def genSplitLoop (sep : Char) : Nat → List Char → List (List Char)
  | 0, s => [s]
  | k + 1, s =>
    match IndexByte s sep with
    | none => [s]
    | some m => s.take m :: genSplitLoop sep k (s.drop (m + 1))

/-- Go `strings.genSplit(s, sep, 0, -1)` for a one-byte separator:
`n = Count(s, sep) + 1` slots, of which the loop fills `n - 1` (the clamp
`if n > len(s)+1` never applies, a string having at most `len(s)` separators). -/
def genSplit (s : List Char) (sep : Char) : List (List Char) :=
  genSplitLoop sep (Count s sep) s

/-- Go `strings.Split(s, ",")`. -/
def SplitComma (s : String) : List String :=
  (genSplit s.data ',').map String.mk

/-- Go `strings.Join(elems, sep)` on character lists. -/
def JoinChars (sep : List Char) : List (List Char) → List Char
  | [] => []
  | [a] => a
  | a :: b :: rest => a ++ sep ++ JoinChars sep (b :: rest)

/-- Go `strings.Join(elems, sep)`. -/
def Join (elems : List String) (sep : String) : String :=
  String.mk (JoinChars sep.data (elems.map String.data))

end strings

/-! ## Go standard library: `path` -/

namespace path

/-- The inner loop of the `..` case of `path.Clean`, run after `out.w--`:
```go
for out.w > dotdot && out.index(out.w) != '/' {
    out.w--
}
```
`buf` holds the bytes written so far (`out.index`), the last argument is
`out.w`; the result is the final `out.w`. -/
def backtrack (buf : List Char) (dotdot : Nat) : Nat → Nat
  | 0 => 0
  | w + 1 =>
    if w + 1 > dotdot ∧ buf.getD (w + 1) '/' ≠ '/' then backtrack buf dotdot w
    else w + 1

/-- The state of the main loop of `path.Clean`: the unread part of the path
(`path[r:]`), the bytes written to the `lazybuf` (`out`, whose length is
`out.w`) and the index `dotdot`. -/
structure CleanState where
  rest : List Char
  out : List Char
  dotdot : Nat
deriving DecidableEq, Repr

/-- One iteration of the main loop of `path.Clean` (the `switch` inside
`for r < n`), for a non-empty unread part. -/
def cleanStep (rooted : Bool) (st : CleanState) : CleanState :=
  let p := st.rest
  if p.head? = some '/' then
    -- empty path element
    { st with rest := p.drop 1 }
  else if p.head? = some '.' ∧ (p.length = 1 ∨ p.get? 1 = some '/') then
    -- . element
    { st with rest := p.drop 1 }
  else if p.head? = some '.' ∧ p.get? 1 = some '.' ∧
      (p.length = 2 ∨ p.get? 2 = some '/') then
    -- .. element: remove to last /
    if st.out.length > st.dotdot then
      -- can backtrack
      { st with rest := p.drop 2,
                out := st.out.take (backtrack st.out st.dotdot (st.out.length - 1)) }
    else if ¬ rooted then
      -- cannot backtrack, but not rooted, so append .. element.
      let out1 := if st.out.length > 0 then st.out ++ ['/'] else st.out
      let out2 := out1 ++ ['.', '.']
      { rest := p.drop 2, out := out2, dotdot := out2.length }
    else
      { st with rest := p.drop 2 }
  else
    -- real path element: add slash if needed, then copy the element
    let out1 :=
      if (rooted ∧ st.out.length ≠ 1) ∨ (¬ rooted ∧ st.out.length ≠ 0) then st.out ++ ['/']
      else st.out
    { st with rest := p.dropWhile (· ≠ '/'),
              out := out1 ++ p.takeWhile (· ≠ '/') }

/-- The main loop `for r < n { ... }` of `path.Clean`; every iteration
advances `r`, so `n` iterations always suffice and the first argument bounds
them. -/
def cleanLoop (rooted : Bool) : Nat → CleanState → CleanState
  | 0, st => st
  | k + 1, st => if st.rest = [] then st else cleanLoop rooted k (cleanStep rooted st)

/-- Go `path.Clean` on character lists. -/
def CleanChars (p : List Char) : List Char :=
  if p = [] then ['.']
  else
    let rooted : Bool := p.head? = some '/'
    let init : CleanState :=
      if rooted then { rest := p.drop 1, out := ['/'], dotdot := 1 }
      else { rest := p, out := [], dotdot := 0 }
    let fin := cleanLoop rooted p.length init
    -- Turn empty string into "."
    if fin.out.length = 0 then ['.'] else fin.out

/-- Go `path.Clean`. -/
def Clean (p : String) : String := String.mk (CleanChars p.data)

/-- Go `path.Join` for two elements:
```go
for _, e := range elem {
    if len(buf) > 0 || e != "" {
        if len(buf) > 0 { buf = append(buf, '/') }
        buf = append(buf, e...)
    }
}
return Clean(string(buf))
```
preceded by `if size == 0 { return "" }`. -/
def JoinChars (a b : List Char) : List Char :=
  if a.length + b.length = 0 then []
  else
    let buf1 := a
    let buf2 := if buf1.length > 0 ∨ b ≠ [] then
        (if buf1.length > 0 then buf1 ++ ['/'] else buf1) ++ b
      else buf1
    CleanChars buf2

/-- Go `path.Join(a, b)`. -/
def Join (a b : String) : String := String.mk (JoinChars a.data b.data)

end path

/-! ## Go maps -/

namespace GoMap

variable {κ ν : Type} [DecidableEq κ]

/-- Go `v, ok := m[k]`: `some v` when the key is present (`ok = true`). -/
def get : List (κ × ν) → κ → Option ν
  | [], _ => none
  | (k1, v) :: m, k => if k1 = k then some v else get m k

/-- Go `delete(m, k)`. -/
def delete (m : List (κ × ν)) (k : κ) : List (κ × ν) :=
  m.filter (fun e => e.1 ≠ k)

/-- Go `m[k] = v`: the entry for `k` is replaced, or added when absent. -/
def set (m : List (κ × ν)) (k : κ) (v : ν) : List (κ × ν) :=
  delete m k ++ [(k, v)]

/-- The keys of a map. -/
def keys (m : List (κ × ν)) : List κ := m.map (·.1)

end GoMap

/-! ## Data model -/

/-- Go `v1.PodRunning`, a value of `type PodPhase string`. -/
def v1.PodRunning : String := "Running"

/-- Go `v1.PodPending`. -/
def v1.PodPending : String := "Pending"

/-- The fields of `v1.Pod` the manager reads: `UID`, `Name`, `Status.Phase`. -/
structure Pod where
  UID : String
  Name : String
  Phase : String
deriving DecidableEq, Repr

/-- Go `type checkpoint struct`; `unblock` and `done` are channel
identifiers. -/
structure checkpoint where
  path : String
  containers : List String
  unblock : Nat
  done : Nat
deriving DecidableEq, Repr

/-- Go `type ResultContainer struct`. -/
structure ResultContainer where
  CheckpointPath : String
deriving DecidableEq, Repr

/-- Go `type Result struct`; `Containers` is a `map[string]ResultContainer`. -/
structure Result where
  Containers : List (String × ResultContainer)
deriving DecidableEq, Repr

/-- Go `type CheckpointRequestParams struct`. -/
structure CheckpointRequestParams where
  podUID : String
  containerNames : List String
deriving DecidableEq, Repr

/-- The part of a `restful.Request` read by the manager: its path parameters
and the first value of each query parameter. -/
structure Request where
  pathParameters : List (String × String)
  queryParameters : List (String × String)
deriving DecidableEq, Repr

/-- Go-restful `req.PathParameter(name)`: the empty string when absent. -/
def Request.PathParameter (req : Request) (name : String) : String :=
  (GoMap.get req.pathParameters name).getD ""

/-- Go-restful `req.QueryParameter(name)`: the empty string when absent. -/
def Request.QueryParameter (req : Request) (name : String) : String :=
  (GoMap.get req.queryParameters name).getD ""

/-- Go `type manager struct`. `podManager` is the `GetPodByUID` method of the
pod manager; `kubeClient` is never read and `checkpointFc` is an external
callback: its invocation is recorded as an event, and it is taken to return
without changing the manager (it only schedules the asynchronous work). -/
structure manager where
  checkpointPath : String
  podManager : String → Option Pod
  checkpoints : List (String × Nat)

/-- The manager together with the heap of `checkpoint` records its map
points into and the allocation counters for records and channels. -/
structure State where
  m : manager
  heap : Nat → checkpoint
  nextPtr : Nat
  nextChan : Nat

/-- What another goroutine can do to the manager through this package while
an operation is parked: another `HandleCheckpointRequest` registers a record
for a pod and stores the requested names on it (`handle`), or another
`removeCheckpoint` gets past its send and deletes the entry of a pod
(`remove`). No code of the package writes a field of a record that already
exists. -/
inductive OtherOp
  | handle (pod : Pod) (containerNames : List String)
  | remove (pod : Pod)
deriving DecidableEq, Repr

/-- The UID whose registry entry the action of another goroutine touches. -/
def OtherOp.uid : OtherOp → String
  | OtherOp.handle pod _ => pod.UID
  | OtherOp.remove pod => pod.UID

/-- The goroutines on the other side of the channels: `sends c` says that
some other goroutine eventually sends on channel `c`, `recvs c` that some
other goroutine eventually receives from it, and `during c` lists, in order,
what the other goroutines do to the manager while the operation is parked on
channel `c`, up to the moment it goes on. -/
structure Peers where
  sends : Nat → Bool
  recvs : Nat → Bool
  during : Nat → List OtherOp

/-- What an operation does that is visible outside the manager. -/
inductive Event
  | checkpointFc (pod : Pod)
  | recv (ch : Nat)
  | send (ch : Nat)
  | WriteAsJson (r : Result)
  | WriteHeader (status : Nat)
deriving DecidableEq, Repr

/-- The execution of an operation: the state reached, the events performed
in order, and whether the operation returned (`false`: it is blocked forever
on a channel operation no peer completes). -/
structure Run where
  state : State
  events : List Event
  returned : Bool

/-! ## Operations -/

/-- Go `NewManager`. -/
def NewManager (podManager : String → Option Pod) (rootPath : String) : manager :=
  { checkpointPath := path.Join rootPath "checkpoint",
    podManager := podManager,
    checkpoints := [] }

/-- The state right after `NewManager`: nothing allocated yet. -/
def State.init (m : manager) : State :=
  { m := m, heap := fun _ => { path := "", containers := [], unblock := 0, done := 0 },
    nextPtr := 0, nextChan := 0 }

/-- Go `getCheckpointRequestParams`. -/
def getCheckpointRequestParams (req : Request) : CheckpointRequestParams :=
  { podUID := req.PathParameter "podUID",
    containerNames := strings.SplitComma (req.QueryParameter "containers") }

/-- Go `(*manager).FindCheckpointForPod`: the record pointer (`none` is
`nil`) and the `ok` of the map lookup. -/
def FindCheckpointForPod (pod : Pod) (s : State) : Option Nat × Bool :=
  match GoMap.get s.m.checkpoints pod.UID with
  | some ck => (some ck, true)
  | none => (none, false)

/-- Go `(*manager).newCheckpoint`: allocates the record and its two channels
(`unblock` first, `done` second), stores the pointer under the pod's UID and
returns it. -/
def newCheckpoint (pod : Pod) (s : State) : Nat × State :=
  let ck : checkpoint :=
    { path := path.Join s.m.checkpointPath pod.Name,
      containers := [],
      unblock := s.nextChan,
      done := s.nextChan + 1 }
  (s.nextPtr,
   { m := { s.m with checkpoints := GoMap.set s.m.checkpoints pod.UID s.nextPtr },
     heap := fun p => if p = s.nextPtr then ck else s.heap p,
     nextPtr := s.nextPtr + 1,
     nextChan := s.nextChan + 2 })

/-- The effect on the manager of one action of another goroutine: `handle`
is lines 86-87 of another `HandleCheckpointRequest` (`newCheckpoint`, then
`ck.containers = ...` on the record just created), `remove` is line 125 of
another `removeCheckpoint` (`delete(m.checkpoints, pod.GetUID())`). -/
def OtherOp.apply : OtherOp → State → State
  | OtherOp.handle pod containerNames, s =>
    let (ck, s1) := newCheckpoint pod s
    { s1 with heap := fun p =>
        if p = ck then { s1.heap ck with containers := containerNames } else s1.heap p }
  | OtherOp.remove pod, s =>
    { s with m := { s.m with checkpoints := GoMap.delete s.m.checkpoints pod.UID } }

/-- The actions of the other goroutines, in order. -/
def applyOthers (ops : List OtherOp) (s : State) : State :=
  ops.foldl (fun st op => op.apply st) s

/-- Go `(*manager).removeCheckpoint`. The send on `mig.done` is a rendezvous
on an unbuffered channel: without a receiver the call stays blocked there;
with one, the entry is deleted from the map as the other goroutines left it
meanwhile. -/
def removeCheckpoint (env : Peers) (pod : Pod) (s : State) : Run :=
  match GoMap.get s.m.checkpoints pod.UID with
  | none => { state := s, events := [], returned := true }
  | some mig =>
    -- mig.done <- struct{}{}
    if env.recvs (s.heap mig).done then
      let s1 := applyOthers (env.during (s.heap mig).done) s
      { state := { s1 with m := { s1.m with
            checkpoints := GoMap.delete s1.m.checkpoints pod.UID } },
        events := [Event.send (s.heap mig).done],
        returned := true }
    else
      { state := s, events := [], returned := false }

/-- The result loop of `HandleCheckpointRequest`:
```go
r := Result{Containers: map[string]ResultContainer{}}
for _, c := range ck.containers {
    r.Containers[c] = ResultContainer{CheckpointPath: path.Join(ck.path, c)}
}
```
-/
def buildResult (ck : checkpoint) : Result :=
  ck.containers.foldl
    (fun r c => { Containers := GoMap.set r.Containers c { CheckpointPath := path.Join ck.path c } })
    { Containers := [] }

/-- Go `(*manager).HandleCheckpointRequest`. The handler parks twice, on the
receive from `ck.done` and on the send on `ck.unblock`; the state it goes on
with is the one the other goroutines left meanwhile, and it reads its record
through the pointer `ck`. -/
def HandleCheckpointRequest (env : Peers) (req : Request) (s : State) : Run :=
  let params := getCheckpointRequestParams req
  match s.m.podManager params.podUID with
  | none => { state := s, events := [Event.WriteHeader 404], returned := true }
  | some pod =>
    if pod.Phase ≠ v1.PodRunning then
      { state := s, events := [Event.WriteHeader 409], returned := true }
    else
      let (ck, s1) := newCheckpoint pod s
      -- ck.containers = params.containerNames
      let s2 : State :=
        { s1 with heap := fun p =>
            if p = ck then { s1.heap ck with containers := params.containerNames } else s1.heap p }
      let ev1 := [Event.checkpointFc pod]
      -- <-ck.done
      let done := (s2.heap ck).done
      if ¬ env.sends done then
        { state := s2, events := ev1, returned := false }
      else
        let s3 := applyOthers (env.during done) s2
        let r := buildResult (s3.heap ck)
        let ev2 := ev1 ++ [Event.recv done, Event.WriteAsJson r, Event.WriteHeader 200]
        -- ck.unblock <- struct{}{}
        let unblock := (s3.heap ck).unblock
        if ¬ env.recvs unblock then
          { state := s3, events := ev2, returned := false }
        else
          { state := applyOthers (env.during unblock) s3,
            events := ev2 ++ [Event.send unblock], returned := true }

/-- Go `(*checkpoint).WaitUntilFinished`: `<-ck.unblock`. -/
def WaitUntilFinished (env : Peers) (ck : Nat) (s : State) : Run :=
  if env.sends (s.heap ck).unblock then
    { state := applyOthers (env.during (s.heap ck).unblock) s,
      events := [Event.recv (s.heap ck).unblock], returned := true }
  else
    { state := s, events := [], returned := false }

/-! ## Concrete inputs used to exercise the theorems -/

/-- A running pod `pod1` with UID `u1`. -/
def examplePod : Pod := { UID := "u1", Name := "pod1", Phase := v1.PodRunning }

/-- A pod that is known to the pod manager but still pending. -/
def examplePendingPod : Pod := { UID := "u2", Name := "pod2", Phase := v1.PodPending }

/-- A pod manager that knows `examplePod` and `examplePendingPod`. -/
def examplePodManager : String → Option Pod := fun uid =>
  if uid = "u1" then some examplePod
  else if uid = "u2" then some examplePendingPod
  else none

/-- Peers that complete every channel operation and leave the registry
alone. -/
def exampleEnv : Peers :=
  { sends := fun _ => true, recvs := fun _ => true, during := fun _ => [] }

/-- Peers that never show up. -/
def exampleNoPeers : Peers :=
  { sends := fun _ => false, recvs := fun _ => false, during := fun _ => [] }

/-- Peers that complete every channel operation, one of them being a
`removeCheckpoint` for `examplePod`: it is the sender on `done` and deletes
the entry while the handler is on its way to the release send. -/
def exampleCancelEnv : Peers :=
  { sends := fun _ => true, recvs := fun _ => true,
    during := fun c => if c = 0 then [OtherOp.remove examplePod] else [] }

/-- The request `POST .../u1?containers=a,b`. -/
def exampleRequest : Request :=
  { pathParameters := [("podUID", "u1")], queryParameters := [("containers", "a,b")] }

/-- The request `POST .../u1` without a `containers` parameter. -/
def exampleBareRequest : Request :=
  { pathParameters := [("podUID", "u1")], queryParameters := [] }

/-- The request `POST .../u9?containers=a` for a UID nobody knows. -/
def exampleUnknownRequest : Request :=
  { pathParameters := [("podUID", "u9")], queryParameters := [("containers", "a")] }

/-- The request `POST .../u2?containers=a` for the pending pod. -/
def examplePendingRequest : Request :=
  { pathParameters := [("podUID", "u2")], queryParameters := [("containers", "a")] }

/-- A freshly created manager rooted at `/ckpt`. -/
def exampleState : State := State.init (NewManager examplePodManager "/ckpt")

/-- The request `POST .../u1?containers=../x`. -/
def exampleTraversalRequest : Request :=
  { pathParameters := [("podUID", "u1")], queryParameters := [("containers", "../x")] }

/-! ## Auxiliary notions used in the statements -/

/-- A single plain path element: non-empty, without `/`, and neither `.` nor
`..` (the elements `path.Clean` leaves alone). -/
def isPathElement (e : String) : Prop :=
  e ≠ "" ∧ '/' ∉ e.data ∧ e ≠ "." ∧ e ≠ ".."

instance (e : String) : Decidable (isPathElement e) := by
  unfold isPathElement
  infer_instance

/-- The record `HandleCheckpointRequest` leaves in the heap for `pod`. -/
def handledRecord (req : Request) (s : State) (pod : Pod) : checkpoint :=
  { path := path.Join s.m.checkpointPath pod.Name,
    containers := (getCheckpointRequestParams req).containerNames,
    unblock := s.nextChan,
    done := s.nextChan + 1 }

/-- The state `HandleCheckpointRequest` reaches once the record is set up. -/
def handledState (req : Request) (s : State) (pod : Pod) : State :=
  { m := { s.m with checkpoints := GoMap.set s.m.checkpoints pod.UID s.nextPtr },
    heap := fun p => if p = s.nextPtr then handledRecord req s pod else s.heap p,
    nextPtr := s.nextPtr + 1,
    nextChan := s.nextChan + 2 }

/-! ## Map lemmas -/

namespace GoMap

variable {κ ν : Type} [DecidableEq κ]

theorem get_delete_self (m : List (κ × ν)) (k : κ) : get (delete m k) k = none := by
  induction m with
  | nil => rfl
  | cons e m ih =>
    obtain ⟨k1, v⟩ := e
    by_cases h : k1 = k
    · simpa [delete, List.filter_cons, h] using ih
    · simpa [delete, List.filter_cons, h, get] using ih

theorem get_delete_ne (m : List (κ × ν)) {k k2 : κ} (h : k2 ≠ k) :
    get (delete m k) k2 = get m k2 := by
  induction m with
  | nil => rfl
  | cons e m ih =>
    obtain ⟨k1, v⟩ := e
    have ih2 : get (List.filter (fun e => !decide (e.1 = k)) m) k2 = get m k2 := by
      simpa [delete] using ih
    have hk : ¬ k = k2 := fun h3 => h h3.symm
    by_cases h1 : k1 = k
    · subst h1
      simp [delete, List.filter_cons, get, hk, ih2]
    · by_cases h2 : k1 = k2
      · subst h2
        simp [delete, List.filter_cons, get, h]
      · simp [delete, List.filter_cons, h1, get, h2, ih2]

theorem get_append_of_none (m m2 : List (κ × ν)) (k : κ) (h : get m k = none) :
    get (m ++ m2) k = get m2 k := by
  induction m with
  | nil => rfl
  | cons e m ih =>
    obtain ⟨k1, v⟩ := e
    by_cases h1 : k1 = k
    · simp [get, h1] at h
    · simp only [get, h1, if_false] at h
      simpa [get, h1] using ih h

theorem get_append_of_some (m m2 : List (κ × ν)) (k : κ) (v : ν) (h : get m k = some v) :
    get (m ++ m2) k = some v := by
  induction m with
  | nil => simp [get] at h
  | cons e m ih =>
    obtain ⟨k1, v1⟩ := e
    by_cases h1 : k1 = k
    · simpa [get, h1] using h
    · simp only [get, h1, if_false] at h
      simpa [get, h1] using ih h

theorem get_set_self (m : List (κ × ν)) (k : κ) (v : ν) : get (set m k v) k = some v := by
  unfold set
  rw [get_append_of_none _ _ _ (get_delete_self m k)]
  simp [get]

theorem get_set_ne (m : List (κ × ν)) {k k2 : κ} (v : ν) (h : k2 ≠ k) :
    get (set m k v) k2 = get m k2 := by
  unfold set
  cases hg : get (delete m k) k2 with
  | none =>
    rw [get_append_of_none _ _ _ hg, ← get_delete_ne m h, hg]
    simp [get, Ne.symm h]
  | some w =>
    rw [get_append_of_some _ _ _ _ hg, ← get_delete_ne m h, hg]

theorem filter_key_delete (m : List (κ × ν)) (k : κ) :
    (delete m k).filter (fun e => e.1 = k) = [] := by
  simp [delete, List.filter_filter, List.filter_eq_nil_iff]

theorem filter_key_set (m : List (κ × ν)) (k : κ) (v : ν) :
    (set m k v).filter (fun e => e.1 = k) = [(k, v)] := by
  unfold set
  rw [List.filter_append, filter_key_delete]
  simp

theorem get_eq_none_iff (m : List (κ × ν)) (k : κ) : get m k = none ↔ k ∉ keys m := by
  induction m with
  | nil => simp [get, keys]
  | cons e m ih =>
    obtain ⟨k1, v⟩ := e
    by_cases h1 : k1 = k
    · simp [get, keys, h1]
    · have h2 : ¬ k = k1 := fun h => h1 h.symm
      simpa [get, keys, h1, h2] using ih

theorem keys_delete (m : List (κ × ν)) (k : κ) : keys (delete m k) = (keys m).filter (· ≠ k) := by
  induction m with
  | nil => rfl
  | cons e m ih =>
    obtain ⟨k1, v⟩ := e
    by_cases h1 : k1 = k
    · simpa [delete, keys, List.filter_cons, h1] using ih
    · simpa [delete, keys, List.filter_cons, h1] using ih

theorem keys_set (m : List (κ × ν)) (k : κ) (v : ν) :
    keys (set m k v) = (keys m).filter (· ≠ k) ++ [k] := by
  unfold set
  rw [← keys_delete]
  simp [keys]

theorem nodup_keys_set (m : List (κ × ν)) (k : κ) (v : ν) (h : (keys m).Nodup) :
    (keys (set m k v)).Nodup := by
  rw [keys_set]
  refine List.Nodup.append (h.filter _) (List.nodup_singleton k) ?_
  intro a ha hk
  simp at hk
  simp [List.mem_filter, hk] at ha

theorem mem_keys_set (m : List (κ × ν)) (k : κ) (v : ν) (a : κ) :
    a ∈ keys (set m k v) ↔ a = k ∨ a ∈ keys m := by
  rw [keys_set]
  by_cases h : a = k
  · simp [h]
  · simp [List.mem_filter, h]

end GoMap

/-! ## The handler on a resolved, running pod -/

theorem ite_ite_dup {α : Type} (c : Prop) [Decidable c] (x y z : α) :
    (if c then x else if c then y else z) = if c then x else z := by
  split <;> simp [*]

theorem OtherOp_apply_heap (op : OtherOp) (s : State) (p : Nat) (hp : p < s.nextPtr) :
    (op.apply s).heap p = s.heap p ∧ s.nextPtr ≤ (op.apply s).nextPtr := by
  have hne : ¬ p = s.nextPtr := Nat.ne_of_lt hp
  cases op with
  | handle pod cs => simp [OtherOp.apply, newCheckpoint, hne]
  | remove pod => simp [OtherOp.apply]

theorem applyOthers_heap (ops : List OtherOp) (s : State) (p : Nat) (hp : p < s.nextPtr) :
    (applyOthers ops s).heap p = s.heap p := by
  induction ops generalizing s with
  | nil => rfl
  | cons op ops ih =>
    obtain ⟨h1, h2⟩ := OtherOp_apply_heap op s p hp
    have : applyOthers (op :: ops) s = applyOthers ops (op.apply s) := rfl
    rw [this, ih (op.apply s) (Nat.lt_of_lt_of_le hp h2), h1]

theorem OtherOp_apply_entries (op : OtherOp) (s : State) (uid : String) (h : op.uid ≠ uid) :
    GoMap.get (op.apply s).m.checkpoints uid = GoMap.get s.m.checkpoints uid ∧
      (op.apply s).m.checkpoints.filter (fun e => e.1 = uid)
        = s.m.checkpoints.filter (fun e => e.1 = uid) := by
  have h2 : uid ≠ op.uid := fun e => h e.symm
  cases op with
  | handle pod cs =>
    have h3 : ¬ pod.UID = uid := h
    constructor
    · simpa [OtherOp.apply, newCheckpoint] using GoMap.get_set_ne s.m.checkpoints s.nextPtr h2
    · simp [OtherOp.apply, newCheckpoint, GoMap.set, GoMap.delete, List.filter_append,
        List.filter_filter, h3]
      apply List.filter_congr
      intro e _
      by_cases he : e.1 = uid
      · have : ¬ e.1 = pod.UID := fun e2 => h3 (e2 ▸ he)
        have h4 : ¬ uid = pod.UID := fun e2 => h3 e2.symm
        simp [he, h4]
      · simp [he]
  | remove pod =>
    have h3 : ¬ pod.UID = uid := h
    constructor
    · simpa [OtherOp.apply] using GoMap.get_delete_ne s.m.checkpoints h2
    · simp [OtherOp.apply, GoMap.delete, List.filter_filter]
      apply List.filter_congr
      intro e _
      by_cases he : e.1 = uid
      · have : ¬ e.1 = pod.UID := fun e2 => h3 (e2 ▸ he)
        have h4 : ¬ uid = pod.UID := fun e2 => h3 e2.symm
        simp [he, h4]
      · simp [he]

theorem applyOthers_entries (ops : List OtherOp) (s : State) (uid : String)
    (h : ∀ op ∈ ops, op.uid ≠ uid) :
    GoMap.get (applyOthers ops s).m.checkpoints uid = GoMap.get s.m.checkpoints uid ∧
      (applyOthers ops s).m.checkpoints.filter (fun e => e.1 = uid)
        = s.m.checkpoints.filter (fun e => e.1 = uid) := by
  induction ops generalizing s with
  | nil => exact ⟨rfl, rfl⟩
  | cons op ops ih =>
    have hstep : applyOthers (op :: ops) s = applyOthers ops (op.apply s) := rfl
    obtain ⟨h1, h2⟩ := OtherOp_apply_entries op s uid (h op (by simp))
    obtain ⟨h3, h4⟩ := ih (op.apply s) (fun o ho => h o (by simp [ho]))
    rw [hstep, h3, h4, h1, h2]
    exact ⟨rfl, rfl⟩

theorem newCheckpoint_fst (pod : Pod) (s : State) : (newCheckpoint pod s).1 = s.nextPtr := rfl

theorem handledState_heap_self (req : Request) (s : State) (pod : Pod) :
    (handledState req s pod).heap s.nextPtr = handledRecord req s pod := by
  simp [handledState]

theorem handledState_others_heap (ops : List OtherOp) (req : Request) (s : State) (pod : Pod) :
    (applyOthers ops (handledState req s pod)).heap s.nextPtr = handledRecord req s pod := by
  rw [applyOthers_heap ops _ _ (by simp [handledState]), handledState_heap_self]

theorem handledState_others2_heap (ops ops2 : List OtherOp) (req : Request) (s : State)
    (pod : Pod) :
    (applyOthers ops2 (applyOthers ops (handledState req s pod))).heap s.nextPtr
      = handledRecord req s pod := by
  have : applyOthers ops2 (applyOthers ops (handledState req s pod))
      = applyOthers (ops ++ ops2) (handledState req s pod) := by
    simp [applyOthers, List.foldl_append]
  rw [this, handledState_others_heap]

theorem HandleCheckpointRequest_setup (req : Request) (s : State) (pod : Pod) :
    ({ m := { s.m with checkpoints := GoMap.set s.m.checkpoints pod.UID s.nextPtr },
       heap := fun p =>
         if p = s.nextPtr then
           { path := path.Join s.m.checkpointPath pod.Name,
             containers := (getCheckpointRequestParams req).containerNames,
             unblock := s.nextChan, done := s.nextChan + 1 }
         else if p = s.nextPtr then
           { path := path.Join s.m.checkpointPath pod.Name, containers := [],
             unblock := s.nextChan, done := s.nextChan + 1 }
         else s.heap p,
       nextPtr := s.nextPtr + 1,
       nextChan := s.nextChan + 2 } : State) = handledState req s pod := by
  simp [handledState, handledRecord, ite_ite_dup]

theorem HandleCheckpointRequest_running (env : Peers) (req : Request) (s : State) (pod : Pod)
    (hpod : s.m.podManager (getCheckpointRequestParams req).podUID = some pod)
    (hrun : pod.Phase = v1.PodRunning) :
    HandleCheckpointRequest env req s =
      if env.sends (s.nextChan + 1) = true then
        if env.recvs s.nextChan = true then
          { state := applyOthers (env.during s.nextChan)
              (applyOthers (env.during (s.nextChan + 1)) (handledState req s pod)),
            events := [Event.checkpointFc pod, Event.recv (s.nextChan + 1),
              Event.WriteAsJson (buildResult (handledRecord req s pod)),
              Event.WriteHeader 200, Event.send s.nextChan],
            returned := true }
        else
          { state := applyOthers (env.during (s.nextChan + 1)) (handledState req s pod),
            events := [Event.checkpointFc pod, Event.recv (s.nextChan + 1),
              Event.WriteAsJson (buildResult (handledRecord req s pod)),
              Event.WriteHeader 200],
            returned := false }
      else
        { state := handledState req s pod,
          events := [Event.checkpointFc pod],
          returned := false } := by
  have hrec := handledState_others_heap (env.during (s.nextChan + 1)) req s pod
  have hub : (handledRecord req s pod).unblock = s.nextChan := rfl
  unfold HandleCheckpointRequest
  simp only [hpod, hrun, newCheckpoint, ne_eq, not_true_eq_false, if_false, if_true,
    HandleCheckpointRequest_setup, handledState_heap_self]
  rw [hrec, hub]
  by_cases h1 : env.sends (s.nextChan + 1) = true
  · by_cases h2 : env.recvs s.nextChan = true
    · simp [h1, h2]
    · simp [h1, h2]
  · simp [h1]

theorem HandleCheckpointRequest_running_heap (env : Peers) (req : Request) (s : State)
    (pod : Pod)
    (hpod : s.m.podManager (getCheckpointRequestParams req).podUID = some pod)
    (hrun : pod.Phase = v1.PodRunning) :
    (HandleCheckpointRequest env req s).state.heap s.nextPtr = handledRecord req s pod := by
  rw [HandleCheckpointRequest_running env req s pod hpod hrun]
  split
  · split
    · exact handledState_others2_heap _ _ req s pod
    · exact handledState_others_heap _ req s pod
  · exact handledState_heap_self req s pod

/-! ## Claims about the handler and the registry -/

/-- C1: in every execution of `HandleCheckpointRequest` for a resolved,
running pod the send on the record's `unblock` channel occurs at most once,
exactly once when the handler returns, and every occurrence comes after the
receive on `done`, after `WriteAsJson` and after `WriteHeader(200)`, in that
order; the handler sends on no other channel, and it does return when a peer
sends on `done` and a peer receives from `unblock`. -/
theorem C1_release_once_after_delivery (env : Peers) (req : Request) (s : State) (pod : Pod)
    (hpod : s.m.podManager (getCheckpointRequestParams req).podUID = some pod)
    (hrun : pod.Phase = v1.PodRunning) :
    let run := HandleCheckpointRequest env req s
    let ck := run.state.heap (newCheckpoint pod s).1
    (run.returned = true → run.events.count (Event.send ck.unblock) = 1) ∧
    run.events.count (Event.send ck.unblock) ≤ 1 ∧
    (∀ i : Nat, run.events[i]? = some (Event.send ck.unblock) →
      ∃ j k l : Nat, j < k ∧ k < l ∧ l < i ∧
        run.events[j]? = some (Event.recv ck.done) ∧
        (∃ r, run.events[k]? = some (Event.WriteAsJson r)) ∧
        run.events[l]? = some (Event.WriteHeader 200)) ∧
    (∀ c, Event.send c ∈ run.events → c = ck.unblock) ∧
    (env.sends ck.done = true → env.recvs ck.unblock = true → run.returned = true) := by
  intro run ck
  have hck : ck = handledRecord req s pod :=
    HandleCheckpointRequest_running_heap env req s pod hpod hrun
  have hub : ck.unblock = s.nextChan := by rw [hck]; rfl
  have hdn : ck.done = s.nextChan + 1 := by rw [hck]; rfl
  rw [hub, hdn]
  have hrun2 := HandleCheckpointRequest_running env req s pod hpod hrun
  by_cases h1 : env.sends (s.nextChan + 1) = true
  · by_cases h2 : env.recvs s.nextChan = true
    · have he : run.events = [Event.checkpointFc pod, Event.recv (s.nextChan + 1),
          Event.WriteAsJson (buildResult (handledRecord req s pod)),
          Event.WriteHeader 200, Event.send s.nextChan] := by
        simp only [run, hrun2, if_pos h1, if_pos h2]
      have hr : run.returned = true := by simp only [run, hrun2, if_pos h1, if_pos h2]
      rw [he, hr]
      refine ⟨fun _ => by simp [List.count_cons], by simp [List.count_cons], ?_, ?_, fun _ _ => rfl⟩
      · intro i hi
        refine ⟨1, 2, 3, by decide, by decide, ?_, rfl, ⟨_, rfl⟩, rfl⟩
        match i, hi with
        | 4, _ => decide
        | (n + 5), h => simp at h
      · intro c hc
        simpa using hc
    · have he : run.events = [Event.checkpointFc pod, Event.recv (s.nextChan + 1),
          Event.WriteAsJson (buildResult (handledRecord req s pod)),
          Event.WriteHeader 200] := by
        simp only [run, hrun2, if_pos h1, if_neg h2]
      have hr : run.returned = false := by
        simp only [run, hrun2, if_pos h1, if_neg h2]
      rw [he, hr]
      refine ⟨fun h => by simp at h, by simp [List.count_cons], ?_, ?_, fun _ h => absurd h h2⟩
      · intro i hi
        match i, hi with
        | (n + 4), h => simp at h
      · intro c hc
        simp at hc
  · have he : run.events = [Event.checkpointFc pod] := by
      simp only [run, hrun2, if_neg h1]
    have hr : run.returned = false := by simp only [run, hrun2, if_neg h1]
    rw [he, hr]
    refine ⟨fun h => by simp at h, by simp [List.count_cons], ?_, ?_, fun h => absurd h h1⟩
    · intro i hi
      match i, hi with
      | (n + 1), h => simp at h
    · intro c hc
      simp at hc

/-- C1 at `POST .../u1?containers=a,b` on a fresh manager with cooperating
peers: the handler returns and its trace holds exactly one release send. -/
theorem C1_release_once_after_delivery_witness :
    exampleState.m.podManager (getCheckpointRequestParams exampleRequest).podUID
        = some examplePod ∧
      examplePod.Phase = v1.PodRunning ∧
      (HandleCheckpointRequest exampleEnv exampleRequest exampleState).returned = true ∧
      (HandleCheckpointRequest exampleEnv exampleRequest exampleState).events.count
        (Event.send ((HandleCheckpointRequest exampleEnv exampleRequest exampleState).state.heap
          (newCheckpoint examplePod exampleState).1).unblock) = 1 :=
  ⟨by decide, by decide, by decide,
    (C1_release_once_after_delivery exampleEnv exampleRequest exampleState examplePod
      (by decide) (by decide)).1 (by decide)⟩

/-- C3: when the pod manager does not resolve the request's pod UID,
`HandleCheckpointRequest` writes status 404 and returns; the state is
unchanged (registry, heap and allocation counters, so no record was created),
the checkpoint trigger is not invoked and no channel is touched. -/
theorem C3_unresolved_pod_not_found (env : Peers) (req : Request) (s : State)
    (hpod : s.m.podManager (getCheckpointRequestParams req).podUID = none) :
    (HandleCheckpointRequest env req s).events = [Event.WriteHeader 404] ∧
    (HandleCheckpointRequest env req s).returned = true ∧
    (HandleCheckpointRequest env req s).state = s ∧
    (HandleCheckpointRequest env req s).state.m.checkpoints = s.m.checkpoints ∧
    (HandleCheckpointRequest env req s).state.nextPtr = s.nextPtr ∧
    (∀ p, Event.checkpointFc p ∉ (HandleCheckpointRequest env req s).events) ∧
    (∀ c, Event.send c ∉ (HandleCheckpointRequest env req s).events ∧
      Event.recv c ∉ (HandleCheckpointRequest env req s).events) := by
  have h : HandleCheckpointRequest env req s =
      { state := s, events := [Event.WriteHeader 404], returned := true } := by
    unfold HandleCheckpointRequest
    simp only [hpod]
  rw [h]
  simp

/-- C3 at a request for the unknown UID `u9`. -/
theorem C3_unresolved_pod_not_found_witness :
    exampleState.m.podManager
        (getCheckpointRequestParams exampleUnknownRequest).podUID = none ∧
      (HandleCheckpointRequest exampleEnv exampleUnknownRequest exampleState).events
        = [Event.WriteHeader 404] :=
  ⟨by decide,
    (C3_unresolved_pod_not_found exampleEnv exampleUnknownRequest exampleState (by decide)).1⟩

/-- C4: when the pod is resolved but its phase is not `PodRunning`,
`HandleCheckpointRequest` writes status 409 and returns; the state is
unchanged (registry, heap and allocation counters, so no record was created)
and the checkpoint trigger is not invoked. -/
theorem C4_not_running_conflict (env : Peers) (req : Request) (s : State) (pod : Pod)
    (hpod : s.m.podManager (getCheckpointRequestParams req).podUID = some pod)
    (hphase : pod.Phase ≠ v1.PodRunning) :
    (HandleCheckpointRequest env req s).events = [Event.WriteHeader 409] ∧
    (HandleCheckpointRequest env req s).returned = true ∧
    (HandleCheckpointRequest env req s).state = s ∧
    (HandleCheckpointRequest env req s).state.m.checkpoints = s.m.checkpoints ∧
    (HandleCheckpointRequest env req s).state.nextPtr = s.nextPtr ∧
    (∀ p, Event.checkpointFc p ∉ (HandleCheckpointRequest env req s).events) := by
  have h : HandleCheckpointRequest env req s =
      { state := s, events := [Event.WriteHeader 409], returned := true } := by
    unfold HandleCheckpointRequest
    simp only [hpod, ne_eq, hphase, not_false_eq_true, if_true]
  rw [h]
  simp

/-- C4 at a request for the pending pod `u2`. -/
theorem C4_not_running_conflict_witness :
    exampleState.m.podManager
        (getCheckpointRequestParams examplePendingRequest).podUID = some examplePendingPod ∧
      examplePendingPod.Phase ≠ v1.PodRunning ∧
      (HandleCheckpointRequest exampleEnv examplePendingRequest exampleState).events
        = [Event.WriteHeader 409] :=
  ⟨by decide, by decide,
    (C4_not_running_conflict exampleEnv examplePendingRequest exampleState examplePendingPod
      (by decide) (by decide)).1⟩

theorem FindCheckpointForPod_of_get (pod : Pod) (s : State) :
    FindCheckpointForPod pod s =
      (GoMap.get s.m.checkpoints pod.UID, (GoMap.get s.m.checkpoints pod.UID).isSome) := by
  unfold FindCheckpointForPod
  cases GoMap.get s.m.checkpoints pod.UID <;> rfl

/-- C5: `newCheckpoint pod` is total; afterwards the registry holds exactly
one entry for the pod's UID, pointing to the record just allocated (at the
address the allocator had not handed out yet, holding the computed path, no
containers and two fresh channels), `FindCheckpointForPod pod` returns that
record with `true`, and lookups for every other UID are unchanged. A second
create for the same UID leaves only the second record reachable under that
UID. -/
theorem C5_newCheckpoint_replaces (pod : Pod) (s : State) :
    FindCheckpointForPod pod (newCheckpoint pod s).2 = (some (newCheckpoint pod s).1, true) ∧
    (newCheckpoint pod s).2.m.checkpoints.filter (fun e => e.1 = pod.UID)
      = [(pod.UID, (newCheckpoint pod s).1)] ∧
    (newCheckpoint pod s).1 = s.nextPtr ∧
    (newCheckpoint pod s).2.nextPtr = s.nextPtr + 1 ∧
    (newCheckpoint pod s).2.heap (newCheckpoint pod s).1 =
      { path := path.Join s.m.checkpointPath pod.Name, containers := [],
        unblock := s.nextChan, done := s.nextChan + 1 } ∧
    (∀ other : Pod, other.UID ≠ pod.UID →
      FindCheckpointForPod other (newCheckpoint pod s).2 = FindCheckpointForPod other s) ∧
    (∀ pod2 : Pod, pod2.UID = pod.UID →
      FindCheckpointForPod pod (newCheckpoint pod2 (newCheckpoint pod s).2).2
        = (some (newCheckpoint pod2 (newCheckpoint pod s).2).1, true) ∧
      (newCheckpoint pod2 (newCheckpoint pod s).2).1 ≠ (newCheckpoint pod s).1 ∧
      (newCheckpoint pod2 (newCheckpoint pod s).2).2.m.checkpoints.filter
          (fun e => e.1 = pod.UID)
        = [(pod.UID, (newCheckpoint pod2 (newCheckpoint pod s).2).1)]) := by
  refine ⟨?_, ?_, rfl, rfl, ?_, ?_, ?_⟩
  · rw [FindCheckpointForPod_of_get]
    simp [newCheckpoint, GoMap.get_set_self]
  · simpa [newCheckpoint] using GoMap.filter_key_set s.m.checkpoints pod.UID s.nextPtr
  · simp [newCheckpoint]
  · intro other hne
    rw [FindCheckpointForPod_of_get, FindCheckpointForPod_of_get]
    simp [newCheckpoint, GoMap.get_set_ne _ _ hne]
  · intro pod2 h2
    refine ⟨?_, ?_, ?_⟩
    · rw [FindCheckpointForPod_of_get]
      simp [newCheckpoint, h2, GoMap.get_set_self]
    · simp [newCheckpoint]
    · simpa [newCheckpoint, h2] using
        GoMap.filter_key_set (GoMap.set s.m.checkpoints pod.UID s.nextPtr) pod.UID
          (s.nextPtr + 1)

/-- C5 on a fresh manager: after two creates for `u1` the lookup returns the
second record. -/
theorem C5_newCheckpoint_replaces_witness :
    examplePod.UID = examplePod.UID ∧
      FindCheckpointForPod examplePod
          (newCheckpoint examplePod (newCheckpoint examplePod exampleState).2).2
        = (some (newCheckpoint examplePod (newCheckpoint examplePod exampleState).2).1, true) :=
  ⟨rfl, ((C5_newCheckpoint_replaces examplePod exampleState).2.2.2.2.2.2 examplePod rfl).1⟩

/-- C6: for a pod whose UID has no record, `removeCheckpoint` returns at once
with the state unchanged and without any event (so no signal is sent), and
`FindCheckpointForPod` reports `false` before and after. -/
theorem C6_removeCheckpoint_absent (env : Peers) (pod : Pod) (s : State)
    (habs : (FindCheckpointForPod pod s).2 = false) :
    (removeCheckpoint env pod s).state = s ∧
    (removeCheckpoint env pod s).state.m.checkpoints = s.m.checkpoints ∧
    (removeCheckpoint env pod s).events = [] ∧
    (removeCheckpoint env pod s).returned = true ∧
    FindCheckpointForPod pod s = (none, false) ∧
    FindCheckpointForPod pod (removeCheckpoint env pod s).state = (none, false) := by
  have hget : GoMap.get s.m.checkpoints pod.UID = none := by
    rw [FindCheckpointForPod_of_get] at habs
    simpa using habs
  have h : removeCheckpoint env pod s = { state := s, events := [], returned := true } := by
    unfold removeCheckpoint
    simp only [hget]
  have hf : FindCheckpointForPod pod s = (none, false) := by
    rw [FindCheckpointForPod_of_get, hget]; rfl
  rw [h]
  exact ⟨rfl, rfl, rfl, rfl, hf, hf⟩

/-- C6 on a fresh manager, whose registry is empty. -/
theorem C6_removeCheckpoint_absent_witness :
    (FindCheckpointForPod examplePod exampleState).2 = false ∧
      (removeCheckpoint exampleEnv examplePod exampleState).events = [] ∧
      (removeCheckpoint exampleEnv examplePod exampleState).returned = true :=
  ⟨by decide,
    (C6_removeCheckpoint_absent exampleEnv examplePod exampleState (by decide)).2.2.1,
    (C6_removeCheckpoint_absent exampleEnv examplePod exampleState (by decide)).2.2.2.1⟩

/-- C7, refuted as stated: a request that ran to completion leaves its
record registered; on that state, with no goroutine receiving on the
record's `done`, `removeCheckpoint` stays blocked on its send: it signals
nothing, and the entry is still found afterwards. -/
theorem C7_removeCheckpoint_blocked_counterexample :
    (HandleCheckpointRequest exampleEnv exampleRequest exampleState).returned = true ∧
      FindCheckpointForPod examplePod
        (HandleCheckpointRequest exampleEnv exampleRequest exampleState).state
        = (some 0, true) ∧
      (removeCheckpoint exampleNoPeers examplePod
        (HandleCheckpointRequest exampleEnv exampleRequest exampleState).state).returned
        = false ∧
      (removeCheckpoint exampleNoPeers examplePod
        (HandleCheckpointRequest exampleEnv exampleRequest exampleState).state).events = [] ∧
      ¬ (FindCheckpointForPod examplePod
        (removeCheckpoint exampleNoPeers examplePod
          (HandleCheckpointRequest exampleEnv exampleRequest exampleState).state).state).2
        = false := by
  decide

/-- C7, amended: for a pod whose UID has a record `ck`. When some goroutine
receives on that record's `done`, `removeCheckpoint` performs exactly one
event, the send on that `done`, deletes the map entry and returns: afterwards
`FindCheckpointForPod pod` reports `false`, no entry for the UID is left, and
the entries of all other UIDs, the heap and the counters are as the other
goroutines left them (as before the call when nothing else ran meanwhile).
When no goroutine receives on `done`, the call stays blocked on the send:
no event, the state is unchanged and the entry is still found. -/
theorem C7_removeCheckpoint_present (env : Peers) (pod : Pod) (s : State) (ck : Nat)
    (hfind : FindCheckpointForPod pod s = (some ck, true)) :
    (env.recvs (s.heap ck).done = true →
      (removeCheckpoint env pod s).returned = true ∧
      (removeCheckpoint env pod s).events = [Event.send (s.heap ck).done] ∧
      (removeCheckpoint env pod s).events.count (Event.send (s.heap ck).done) = 1 ∧
      FindCheckpointForPod pod (removeCheckpoint env pod s).state = (none, false) ∧
      (removeCheckpoint env pod s).state.m.checkpoints.filter (fun e => e.1 = pod.UID) = [] ∧
      (∀ other : Pod, other.UID ≠ pod.UID →
        FindCheckpointForPod other (removeCheckpoint env pod s).state
          = FindCheckpointForPod other (applyOthers (env.during (s.heap ck).done) s)) ∧
      (removeCheckpoint env pod s).state.heap
        = (applyOthers (env.during (s.heap ck).done) s).heap ∧
      (removeCheckpoint env pod s).state.nextPtr
        = (applyOthers (env.during (s.heap ck).done) s).nextPtr ∧
      (removeCheckpoint env pod s).state.nextChan
        = (applyOthers (env.during (s.heap ck).done) s).nextChan ∧
      (env.during (s.heap ck).done = [] →
        (∀ other : Pod, other.UID ≠ pod.UID →
          FindCheckpointForPod other (removeCheckpoint env pod s).state
            = FindCheckpointForPod other s) ∧
        (removeCheckpoint env pod s).state.m.checkpoints
          = GoMap.delete s.m.checkpoints pod.UID ∧
        (removeCheckpoint env pod s).state.heap = s.heap ∧
        (removeCheckpoint env pod s).state.nextPtr = s.nextPtr ∧
        (removeCheckpoint env pod s).state.nextChan = s.nextChan)) ∧
    (env.recvs (s.heap ck).done = false →
      (removeCheckpoint env pod s).returned = false ∧
      (removeCheckpoint env pod s).events = [] ∧
      (removeCheckpoint env pod s).state = s ∧
      FindCheckpointForPod pod (removeCheckpoint env pod s).state = (some ck, true)) := by
  have hget : GoMap.get s.m.checkpoints pod.UID = some ck := by
    rw [FindCheckpointForPod_of_get] at hfind
    exact (Prod.mk.inj hfind).1
  constructor
  · intro hrecv
    have h : removeCheckpoint env pod s =
        { state := { applyOthers (env.during (s.heap ck).done) s with
            m := { (applyOthers (env.during (s.heap ck).done) s).m with
              checkpoints := GoMap.delete
                (applyOthers (env.during (s.heap ck).done) s).m.checkpoints pod.UID } },
          events := [Event.send (s.heap ck).done], returned := true } := by
      unfold removeCheckpoint
      simp only [hget, hrecv, if_true]
    have hother : ∀ (st : State) (other : Pod), other.UID ≠ pod.UID →
        FindCheckpointForPod other
            { st with m := { st.m with checkpoints := GoMap.delete st.m.checkpoints pod.UID } }
          = FindCheckpointForPod other st := by
      intro st other hne
      rw [FindCheckpointForPod_of_get, FindCheckpointForPod_of_get]
      simp [GoMap.get_delete_ne _ hne]
    rw [h]
    refine ⟨rfl, rfl, by simp, ?_, ?_, ?_, rfl, rfl, rfl, ?_⟩
    · rw [FindCheckpointForPod_of_get]
      simp [GoMap.get_delete_self]
    · exact GoMap.filter_key_delete _ _
    · intro other hne
      exact hother _ other hne
    · intro hnil
      rw [hnil]
      refine ⟨?_, rfl, rfl, rfl, rfl⟩
      intro other hne
      exact hother s other hne
  · intro hrecv
    have h : removeCheckpoint env pod s = { state := s, events := [], returned := false } := by
      unfold removeCheckpoint
      simp [hget, hrecv]
    rw [h]
    exact ⟨rfl, rfl, rfl, hfind⟩

/-- C7 amended, on the state after one create for `u1`: with a receiver the
removal sends on channel `1` (the record's `done`) and the lookup misses
afterwards. -/
theorem C7_removeCheckpoint_present_witness :
    FindCheckpointForPod examplePod (newCheckpoint examplePod exampleState).2 = (some 0, true) ∧
      exampleEnv.recvs (((newCheckpoint examplePod exampleState).2).heap 0).done = true ∧
      (removeCheckpoint exampleEnv examplePod (newCheckpoint examplePod exampleState).2).events
        = [Event.send 1] ∧
      FindCheckpointForPod examplePod
        (removeCheckpoint exampleEnv examplePod (newCheckpoint examplePod exampleState).2).state
        = (none, false) :=
  ⟨by decide, by decide,
    ((C7_removeCheckpoint_present exampleEnv examplePod (newCheckpoint examplePod exampleState).2 0
      (by decide)).1 (by decide)).2.1,
    ((C7_removeCheckpoint_present exampleEnv examplePod (newCheckpoint examplePod exampleState).2 0
      (by decide)).1 (by decide)).2.2.2.1⟩

/-- C9, refuted: on a fresh manager the request `POST .../u1?containers=a,b`
runs to completion (the handler returns after the release send) while no
other goroutine touches the registry, yet `FindCheckpointForPod` still finds
the record. -/
theorem C9_record_not_removed_counterexample :
    (HandleCheckpointRequest exampleEnv exampleRequest exampleState).returned = true ∧
      (HandleCheckpointRequest exampleEnv exampleRequest exampleState).events.getLast?
        = some (Event.send 0) ∧
      FindCheckpointForPod examplePod
        (HandleCheckpointRequest exampleEnv exampleRequest exampleState).state
        = (some 0, true) ∧
      ¬ (FindCheckpointForPod examplePod
        (HandleCheckpointRequest exampleEnv exampleRequest exampleState).state).2 = false := by
  decide

/-- When the sender on `done` is a `removeCheckpoint` for the same pod, which
deletes the entry once its send is through, the completed request leaves no
record behind. -/
theorem HandleCheckpointRequest_cancelled_example :
    (HandleCheckpointRequest exampleCancelEnv exampleRequest exampleState).returned = true ∧
      FindCheckpointForPod examplePod
        (HandleCheckpointRequest exampleCancelEnv exampleRequest exampleState).state
        = (none, false) := by
  decide

/-- C9, amended: the normal completion path of `HandleCheckpointRequest`
does not remove the record. For every valid request, if no other goroutine
removes or replaces the registry entry of the pod's UID while the handler is
parked on `done` or on `unblock`, then in every execution (blocked or
returned, in particular after the completion signal, the delivery of the
result and the release send) `FindCheckpointForPod` returns the request's
record with `true`, and the registry holds exactly that one entry for the
UID. -/
theorem C9_record_stays_registered (env : Peers) (req : Request) (s : State) (pod : Pod)
    (hpod : s.m.podManager (getCheckpointRequestParams req).podUID = some pod)
    (hrun : pod.Phase = v1.PodRunning)
    (hquiet : ∀ op ∈
      env.during ((newCheckpoint pod s).2.heap (newCheckpoint pod s).1).done ++
        env.during ((newCheckpoint pod s).2.heap (newCheckpoint pod s).1).unblock,
      op.uid ≠ pod.UID) :
    FindCheckpointForPod pod (HandleCheckpointRequest env req s).state
      = (some (newCheckpoint pod s).1, true) ∧
    (HandleCheckpointRequest env req s).state.m.checkpoints.filter (fun e => e.1 = pod.UID)
      = [(pod.UID, (newCheckpoint pod s).1)] := by
  have hq1 : ∀ op ∈ env.during (s.nextChan + 1), op.uid ≠ pod.UID := by
    intro op hop
    exact hquiet op (by simp [newCheckpoint, hop])
  have hq2 : ∀ op ∈ env.during s.nextChan, op.uid ≠ pod.UID := by
    intro op hop
    exact hquiet op (by simp [newCheckpoint, hop])
  have hget0 : GoMap.get (handledState req s pod).m.checkpoints pod.UID = some s.nextPtr := by
    simp [handledState, GoMap.get_set_self]
  have hfil0 : (handledState req s pod).m.checkpoints.filter (fun e => e.1 = pod.UID)
      = [(pod.UID, s.nextPtr)] := by
    simpa [handledState] using GoMap.filter_key_set s.m.checkpoints pod.UID s.nextPtr
  obtain ⟨hg1, hf1⟩ := applyOthers_entries (env.during (s.nextChan + 1))
    (handledState req s pod) pod.UID hq1
  obtain ⟨hg2, hf2⟩ := applyOthers_entries (env.during s.nextChan)
    (applyOthers (env.during (s.nextChan + 1)) (handledState req s pod)) pod.UID hq2
  have key : GoMap.get (HandleCheckpointRequest env req s).state.m.checkpoints pod.UID
        = some s.nextPtr ∧
      (HandleCheckpointRequest env req s).state.m.checkpoints.filter (fun e => e.1 = pod.UID)
        = [(pod.UID, s.nextPtr)] := by
    rw [HandleCheckpointRequest_running env req s pod hpod hrun]
    split
    · split
      · exact ⟨by rw [hg2, hg1, hget0], by rw [hf2, hf1, hfil0]⟩
      · exact ⟨by rw [hg1, hget0], by rw [hf1, hfil0]⟩
    · exact ⟨hget0, hfil0⟩
  refine ⟨?_, key.2⟩
  rw [FindCheckpointForPod_of_get, key.1]
  rfl

/-- C9 amended, at `POST .../u1?containers=a,b` with cooperating peers that
leave the registry alone. -/
theorem C9_record_stays_registered_witness :
    exampleState.m.podManager (getCheckpointRequestParams exampleRequest).podUID
        = some examplePod ∧
      examplePod.Phase = v1.PodRunning ∧
      (∀ op ∈
        exampleEnv.during ((newCheckpoint examplePod exampleState).2.heap
            (newCheckpoint examplePod exampleState).1).done ++
          exampleEnv.during ((newCheckpoint examplePod exampleState).2.heap
            (newCheckpoint examplePod exampleState).1).unblock,
        op.uid ≠ examplePod.UID) ∧
      FindCheckpointForPod examplePod
        (HandleCheckpointRequest exampleEnv exampleRequest exampleState).state
        = (some (newCheckpoint examplePod exampleState).1, true) :=
  ⟨by decide, by decide, by decide,
    (C9_record_stays_registered exampleEnv exampleRequest exampleState examplePod
      (by decide) (by decide) (by decide)).1⟩

end Kubelet
namespace Kubelet
namespace strings

theorem IndexByte_none {s : List Char} {c : Char} (h : IndexByte s c = none) : c ∉ s := by
  induction s with
  | nil => simp
  | cons x xs ih =>
    by_cases hx : x = c
    · simp [IndexByte, hx] at h
    · simp only [IndexByte, hx, if_false, Option.map_eq_none'] at h
      simp [Ne.symm hx, ih h]

theorem IndexByte_some {s : List Char} {c : Char} {m : Nat} (h : IndexByte s c = some m) :
    c ∉ s.take m ∧ s = s.take m ++ c :: s.drop (m + 1) ∧
      Count s c = Count (s.drop (m + 1)) c + 1 := by
  induction s generalizing m with
  | nil => simp [IndexByte] at h
  | cons x xs ih =>
    by_cases hx : x = c
    · simp only [IndexByte, hx, if_true, Option.some.injEq] at h
      subst h
      simp [hx, Count, Nat.add_comm]
    · simp only [IndexByte, hx, if_false, Option.map_eq_some'] at h
      obtain ⟨m1, hm1, rfl⟩ := h
      obtain ⟨h1, h2, h3⟩ := ih hm1
      refine ⟨?_, ?_, ?_⟩
      · simp [Ne.symm hx, h1]
      · simpa using h2
      · simpa [Count, hx] using h3

theorem Count_eq_zero {s : List Char} {c : Char} (h : c ∉ s) : Count s c = 0 := by
  induction s with
  | nil => rfl
  | cons x xs ih =>
    have hx : ¬ x = c := fun e => h (by simp [e])
    have hxs : c ∉ xs := fun e => h (by simp [e])
    simp [Count, hx, ih hxs]

theorem IndexByte_of_not_mem {s : List Char} {c : Char} (h : c ∉ s) : IndexByte s c = none := by
  induction s with
  | nil => rfl
  | cons x xs ih =>
    have hx : ¬ x = c := fun e => h (by simp [e])
    have hxs : c ∉ xs := fun e => h (by simp [e])
    simp [IndexByte, hx, ih hxs]

theorem IndexByte_append {a rest : List Char} {c : Char} (h : c ∉ a) :
    IndexByte (a ++ c :: rest) c = some a.length := by
  induction a with
  | nil => simp [IndexByte]
  | cons x xs ih =>
    have hx : ¬ x = c := fun e => h (by simp [e])
    have hxs : c ∉ xs := fun e => h (by simp [e])
    simp [IndexByte, hx, ih hxs]

theorem Count_append (a b : List Char) (c : Char) : Count (a ++ b) c = Count a c + Count b c := by
  induction a with
  | nil => simp [Count]
  | cons x xs ih => simp [Count, ih, Nat.add_assoc]

theorem genSplitLoop_ne_nil (sep : Char) (k : Nat) (s : List Char) :
    genSplitLoop sep k s ≠ [] := by
  cases k with
  | zero => simp [genSplitLoop]
  | succ k =>
    unfold genSplitLoop
    cases IndexByte s sep <;> simp

theorem JoinChars_cons (sep a : List Char) {l : List (List Char)} (h : l ≠ []) :
    JoinChars sep (a :: l) = a ++ sep ++ JoinChars sep l := by
  cases l with
  | nil => exact absurd rfl h
  | cons b rest => rfl

theorem JoinChars_genSplitLoop (sep : Char) (k : Nat) (s : List Char) (hk : Count s sep ≤ k) :
    JoinChars [sep] (genSplitLoop sep k s) = s := by
  induction k generalizing s with
  | zero =>
    simp [genSplitLoop, JoinChars]
  | succ k ih =>
    unfold genSplitLoop
    cases hi : IndexByte s sep with
    | none => simp [JoinChars]
    | some m =>
      obtain ⟨_, h2, h3⟩ := IndexByte_some hi
      simp only
      rw [JoinChars_cons _ _ (genSplitLoop_ne_nil sep k _), ih _ (by omega)]
      simpa using h2.symm

theorem genSplitLoop_fields (sep : Char) (k : Nat) (s : List Char) (hk : Count s sep ≤ k) :
    ∀ f ∈ genSplitLoop sep k s, sep ∉ f := by
  induction k generalizing s with
  | zero =>
    intro f hf
    simp only [genSplitLoop, List.mem_singleton] at hf
    subst hf
    intro hmem
    have : IndexByte f sep ≠ none := fun hn => IndexByte_none hn hmem
    cases hi : IndexByte f sep with
    | none => exact this hi
    | some m =>
      have := (IndexByte_some hi).2.2
      omega
  | succ k ih =>
    intro f hf
    unfold genSplitLoop at hf
    cases hi : IndexByte s sep with
    | none =>
      simp only [hi, List.mem_singleton] at hf
      subst hf
      exact IndexByte_none hi
    | some m =>
      obtain ⟨h1, _, h3⟩ := IndexByte_some hi
      simp only [hi, List.mem_cons] at hf
      rcases hf with hf | hf
      · subst hf; exact h1
      · exact ih _ (by omega) f hf

theorem genSplitLoop_length (sep : Char) (k : Nat) (s : List Char) (hk : Count s sep ≤ k) :
    (genSplitLoop sep k s).length = Count s sep + 1 := by
  induction k generalizing s with
  | zero =>
    simp only [genSplitLoop, List.length_singleton]
    omega
  | succ k ih =>
    unfold genSplitLoop
    cases hi : IndexByte s sep with
    | none => simp [Count_eq_zero (IndexByte_none hi)]
    | some m =>
      obtain ⟨_, _, h3⟩ := IndexByte_some hi
      simp only [List.length_cons]
      rw [ih _ (by omega), h3]

theorem genSplitLoop_JoinChars (sep : Char) (l : List (List Char)) (hl : l ≠ [])
    (hf : ∀ f ∈ l, sep ∉ f) (k : Nat) (hk : Count (JoinChars [sep] l) sep ≤ k) :
    genSplitLoop sep k (JoinChars [sep] l) = l := by
  induction l generalizing k with
  | nil => exact absurd rfl hl
  | cons a rest ih =>
    have ha : sep ∉ a := hf a (by simp)
    cases rest with
    | nil =>
      simp only [JoinChars]
      cases k with
      | zero => rfl
      | succ k => simp [genSplitLoop, IndexByte_of_not_mem ha]
    | cons b rest2 =>
      have hj : JoinChars [sep] (a :: b :: rest2) = a ++ sep :: JoinChars [sep] (b :: rest2) := by
        simp [JoinChars]
      rw [hj] at hk ⊢
      have hc : Count (a ++ sep :: JoinChars [sep] (b :: rest2)) sep
          = Count (JoinChars [sep] (b :: rest2)) sep + 1 := by
        rw [Count_append, Count_eq_zero ha]
        simp [Count, Nat.add_comm]
      cases k with
      | zero => omega
      | succ k =>
        unfold genSplitLoop
        simp only [IndexByte_append ha]
        rw [List.take_left, show a.length + 1 = (a ++ [sep]).length by simp,
          show a ++ sep :: JoinChars [sep] (b :: rest2)
            = (a ++ [sep]) ++ JoinChars [sep] (b :: rest2) by simp,
          List.drop_left]
        rw [ih (by simp) (fun f hfm => hf f (by simp [hfm])) k (by omega)]

end strings
end Kubelet

namespace Kubelet

theorem SplitComma_map_data (s : String) :
    (strings.SplitComma s).map String.data = strings.genSplit s.data ',' := by
  simp [strings.SplitComma, List.map_map, Function.comp_def]

/-- C10: `getCheckpointRequestParams` yields as `containerNames` the
comma-separated fields of the `containers` query parameter, in order: the
list is never empty, no field contains a comma, joining the fields with `,`
gives back the parameter value, and it is the only such list (it has one more
field than the value has commas). For an empty or absent value it is the
one-element list `[""]`. -/
theorem C10_containerNames_fields (req : Request) :
    (getCheckpointRequestParams req).containerNames ≠ [] ∧
    strings.Join (getCheckpointRequestParams req).containerNames ","
      = req.QueryParameter "containers" ∧
    (∀ c ∈ (getCheckpointRequestParams req).containerNames, ',' ∉ c.data) ∧
    (getCheckpointRequestParams req).containerNames.length
      = strings.Count (req.QueryParameter "containers").data ',' + 1 ∧
    (∀ l : List String, l ≠ [] → (∀ c ∈ l, ',' ∉ c.data) →
      strings.Join l "," = req.QueryParameter "containers" →
      (getCheckpointRequestParams req).containerNames = l) ∧
    (req.QueryParameter "containers" = "" →
      (getCheckpointRequestParams req).containerNames = [""]) ∧
    (GoMap.get req.queryParameters "containers" = none →
      (getCheckpointRequestParams req).containerNames = [""]) := by
  have hcs : (getCheckpointRequestParams req).containerNames
      = strings.SplitComma (req.QueryParameter "containers") := rfl
  rw [hcs]
  have habsent : GoMap.get req.queryParameters "containers" = none →
      req.QueryParameter "containers" = "" := by
    intro h
    simp [Request.QueryParameter, h]
  revert habsent
  generalize req.QueryParameter "containers" = q
  intro habsent
  have hempty : strings.SplitComma "" = [""] := by decide
  refine ⟨?_, ?_, ?_, ?_, ?_, ?_, ?_⟩
  · simp [strings.SplitComma, strings.genSplit, strings.genSplitLoop_ne_nil]
  · unfold strings.Join
    rw [SplitComma_map_data]
    have : ",".data = [','] := rfl
    rw [this, strings.genSplit, strings.JoinChars_genSplitLoop _ _ _ (Nat.le_refl _)]
  · intro c hc
    simp only [strings.SplitComma, strings.genSplit, List.mem_map] at hc
    obtain ⟨f, hf, rfl⟩ := hc
    exact strings.genSplitLoop_fields _ _ _ (Nat.le_refl _) f hf
  · simp [strings.SplitComma, strings.genSplit,
      strings.genSplitLoop_length _ _ _ (Nat.le_refl _)]
  · intro l hl hf hj
    have hq : q.data = strings.JoinChars [','] (l.map String.data) := by
      rw [← hj]; rfl
    unfold strings.SplitComma strings.genSplit
    rw [hq, strings.genSplitLoop_JoinChars ',' (l.map String.data) (by simpa using hl)
      (by
        intro f hfm
        simp only [List.mem_map] at hfm
        obtain ⟨c, hc, rfl⟩ := hfm
        exact hf c hc) _ (Nat.le_refl _)]
    simp [List.map_map, Function.comp_def]
  · intro hq
    rw [hq, hempty]
  · intro hq
    rw [habsent hq, hempty]

/-- C10 at a request without a `containers` parameter and at
`containers=a,b`. -/
theorem C10_containerNames_fields_witness :
    GoMap.get exampleBareRequest.queryParameters "containers" = none ∧
      (getCheckpointRequestParams exampleBareRequest).containerNames = [""] ∧
      (getCheckpointRequestParams exampleRequest).containerNames = ["a", "b"] :=
  ⟨by decide, (C10_containerNames_fields exampleBareRequest).2.2.2.2.2.2 (by decide),
    ((C10_containerNames_fields exampleRequest).2.2.2.2.1 ["a", "b"] (by decide) (by decide)
      (by decide)).trans rfl⟩

end Kubelet
namespace Kubelet

theorem buildResult_fold (p : String) (cs : List String) (acc : Result)
    (hacc : (GoMap.keys acc.Containers).Nodup) :
    (GoMap.keys (cs.foldl (fun (r : Result) c =>
        ({ Containers := GoMap.set r.Containers c { CheckpointPath := path.Join p c } } : Result))
        acc).Containers).Nodup ∧
    (∀ c, c ∈ GoMap.keys (cs.foldl (fun (r : Result) c =>
        ({ Containers := GoMap.set r.Containers c { CheckpointPath := path.Join p c } } : Result))
        acc).Containers ↔ c ∈ cs ∨ c ∈ GoMap.keys acc.Containers) ∧
    (∀ c, GoMap.get (cs.foldl (fun (r : Result) c =>
        ({ Containers := GoMap.set r.Containers c { CheckpointPath := path.Join p c } } : Result))
        acc).Containers c
      = if c ∈ cs then some { CheckpointPath := path.Join p c } else GoMap.get acc.Containers c) := by
  induction cs generalizing acc with
  | nil => simp [hacc]
  | cons a rest ih =>
    simp only [List.foldl_cons]
    obtain ⟨h1, h2, h3⟩ := ih
      ({ Containers := GoMap.set acc.Containers a { CheckpointPath := path.Join p a } } : Result)
      (GoMap.nodup_keys_set _ _ _ hacc)
    refine ⟨h1, ?_, ?_⟩
    · intro c
      rw [h2 c, GoMap.mem_keys_set]
      simp only [List.mem_cons]
      tauto
    · intro c
      rw [h3 c]
      by_cases hc : c ∈ rest
      · simp [hc]
      · by_cases hca : c = a
        · subst hca
          simp [hc, GoMap.get_set_self]
        · simp [hc, hca, GoMap.get_set_ne _ _ hca]

theorem buildResult_spec (ck : checkpoint) :
    (GoMap.keys (buildResult ck).Containers).Nodup ∧
    (∀ c, c ∈ GoMap.keys (buildResult ck).Containers ↔ c ∈ ck.containers) ∧
    (∀ c, GoMap.get (buildResult ck).Containers c
      = if c ∈ ck.containers then some { CheckpointPath := path.Join ck.path c } else none) := by
  obtain ⟨h1, h2, h3⟩ := buildResult_fold ck.path ck.containers { Containers := [] }
    (by simp [GoMap.keys])
  refine ⟨h1, ?_, ?_⟩
  · intro c
    have := h2 c
    simpa [GoMap.keys] using this
  · intro c
    have := h3 c
    simpa [GoMap.get] using this

/-- C2: for a running pod named `n` under a manager rooted at `root`, once a
peer sends the completion signal the handler writes exactly one result as
JSON; its keys are without repetition and are exactly the distinct names of
the requested list (a reordering of the list with duplicates removed), each
requested name `c` maps to the path
`path.Join(path.Join(path.Join(root, "checkpoint"), n), c)` and no other name
is mapped. -/
theorem C2_result_mapping (env : Peers) (req : Request) (s : State) (root : String) (pod : Pod)
    (hroot : s.m.checkpointPath = path.Join root "checkpoint")
    (hpod : s.m.podManager (getCheckpointRequestParams req).podUID = some pod)
    (hrun : pod.Phase = v1.PodRunning)
    (hdone : env.sends ((newCheckpoint pod s).2.heap (newCheckpoint pod s).1).done = true) :
    ∃ r : Result,
      Event.WriteAsJson r ∈ (HandleCheckpointRequest env req s).events ∧
      (∀ r2, Event.WriteAsJson r2 ∈ (HandleCheckpointRequest env req s).events → r2 = r) ∧
      (GoMap.keys r.Containers).Nodup ∧
      (∀ c, c ∈ GoMap.keys r.Containers ↔ c ∈ (getCheckpointRequestParams req).containerNames) ∧
      (GoMap.keys r.Containers).Perm (getCheckpointRequestParams req).containerNames.dedup ∧
      (∀ c ∈ (getCheckpointRequestParams req).containerNames,
        GoMap.get r.Containers c = some
          { CheckpointPath := path.Join (path.Join (path.Join root "checkpoint") pod.Name) c }) ∧
      (∀ c, c ∉ (getCheckpointRequestParams req).containerNames →
        GoMap.get r.Containers c = none) := by
  have hd : env.sends (s.nextChan + 1) = true := by
    simpa [newCheckpoint] using hdone
  obtain ⟨h1, h2, h3⟩ := buildResult_spec (handledRecord req s pod)
  have hcs : (handledRecord req s pod).containers
      = (getCheckpointRequestParams req).containerNames := rfl
  have hp : (handledRecord req s pod).path
      = path.Join (path.Join root "checkpoint") pod.Name := by
    simp [handledRecord, hroot]
  rw [hcs] at h2 h3
  rw [hp] at h3
  refine ⟨buildResult (handledRecord req s pod), ?_, ?_, h1, h2, ?_, ?_, ?_⟩
  · rw [HandleCheckpointRequest_running env req s pod hpod hrun, if_pos hd]
    split <;> simp
  · intro r2 hr2
    rw [HandleCheckpointRequest_running env req s pod hpod hrun, if_pos hd] at hr2
    split at hr2 <;> simpa using hr2
  · refine (List.perm_ext_iff_of_nodup h1 (List.nodup_dedup _)).2 ?_
    intro c
    rw [h2 c, List.mem_dedup]
  · intro c hc
    rw [h3 c, if_pos hc]
  · intro c hc
    rw [h3 c, if_neg hc]

/-- C2 at root `/ckpt`, pod `pod1` and `containers=a,b`: the result written
is `{a: /ckpt/checkpoint/pod1/a, b: /ckpt/checkpoint/pod1/b}`. -/
theorem C2_result_mapping_witness :
    exampleState.m.checkpointPath = path.Join "/ckpt" "checkpoint" ∧
      exampleState.m.podManager (getCheckpointRequestParams exampleRequest).podUID
        = some examplePod ∧
      examplePod.Phase = v1.PodRunning ∧
      exampleEnv.sends ((newCheckpoint examplePod exampleState).2.heap
        (newCheckpoint examplePod exampleState).1).done = true ∧
      Event.WriteAsJson { Containers :=
          [("a", { CheckpointPath := "/ckpt/checkpoint/pod1/a" }),
           ("b", { CheckpointPath := "/ckpt/checkpoint/pod1/b" })] }
        ∈ (HandleCheckpointRequest exampleEnv exampleRequest exampleState).events := by
  refine ⟨by decide, by decide, by decide, by decide, ?_⟩
  obtain ⟨r, hmem, huniq, _⟩ := C2_result_mapping exampleEnv exampleRequest exampleState "/ckpt"
    examplePod (by decide) (by decide) (by decide) (by decide)
  have hr := huniq { Containers :=
    [("a", { CheckpointPath := "/ckpt/checkpoint/pod1/a" }),
     ("b", { CheckpointPath := "/ckpt/checkpoint/pod1/b" })] } (by decide)
  rw [hr]
  exact hmem

end Kubelet

/-! ## `path.Clean` on a clean path extended by one element -/

namespace Kubelet
namespace path

theorem takeWhile_append_stop (q : Char → Bool) (a b : List Char) (x : Char) (hx : q x = false) :
    (a ++ x :: b).takeWhile q = a.takeWhile q := by
  induction a with
  | nil => simp [List.takeWhile, hx]
  | cons c a ih =>
    cases hc : q c <;> simp [List.takeWhile, hc, ih]

theorem dropWhile_append_stop (q : Char → Bool) (a b : List Char) (x : Char) (hx : q x = false) :
    (a ++ x :: b).dropWhile q = a.dropWhile q ++ x :: b := by
  induction a with
  | nil => simp [List.dropWhile, hx]
  | cons c a ih =>
    cases hc : q c <;> simp [List.dropWhile, hc, ih]

theorem cleanStep_append (rooted : Bool) (a b out : List Char) (dd : Nat) (ha : a ≠ []) :
    cleanStep rooted { rest := a ++ '/' :: b, out := out, dotdot := dd } =
      { rest := (cleanStep rooted { rest := a, out := out, dotdot := dd }).rest ++ '/' :: b,
        out := (cleanStep rooted { rest := a, out := out, dotdot := dd }).out,
        dotdot := (cleanStep rooted { rest := a, out := out, dotdot := dd }).dotdot } := by
  have hs : (fun x : Char => !decide (x = '/')) '/' = false := by decide
  have htw := fun a => takeWhile_append_stop (fun x : Char => !decide (x = '/')) a b '/' hs
  have hdw := fun a => dropWhile_append_stop (fun x : Char => !decide (x = '/')) a b '/' hs
  rcases a with _ | ⟨c0, a1⟩
  · exact absurd rfl ha
  by_cases h0 : c0 = '/'
  · subst h0
    simp [cleanStep]
  by_cases h0d : c0 = '.'
  · subst h0d
    rcases a1 with _ | ⟨c1, a2⟩
    · simp [cleanStep]
    by_cases h1 : c1 = '/'
    · subst h1
      simp [cleanStep]
    by_cases h1d : c1 = '.'
    · subst h1d
      rcases a2 with _ | ⟨c2, a3⟩
      · simp only [cleanStep]
        simp
        split <;> [skip; split] <;> simp
      by_cases h2 : c2 = '/'
      · subst h2
        simp only [cleanStep]
        simp
        split <;> [skip; split] <;> simp
      · simp [cleanStep, h2, htw, hdw]
    · simp [cleanStep, h1, h1d, htw, hdw]
  · simp [cleanStep, h0, h0d, htw, hdw]

end path
end Kubelet

namespace Kubelet
namespace path

theorem dropWhile_length_le (q : Char → Bool) (l : List Char) :
    (l.dropWhile q).length ≤ l.length := by
  induction l with
  | nil => simp
  | cons c l ih =>
    cases hc : q c
    · simp [List.dropWhile, hc]
    · simp only [List.dropWhile, hc, List.length_cons]
      omega

theorem cleanStep_rest_lt (rooted : Bool) (st : CleanState) (h : st.rest ≠ []) :
    (cleanStep rooted st).rest.length < st.rest.length := by
  obtain ⟨p, out, dd⟩ := st
  rcases p with _ | ⟨c0, p1⟩
  · exact absurd rfl h
  have hdw := dropWhile_length_le (fun x : Char => !decide (x = '/')) p1
  unfold cleanStep
  simp only
  split
  · simp
  split
  · simp
  split
  · rename_i h3
    have hlen : 2 ≤ (c0 :: p1).length := by
      rcases p1 with _ | ⟨c1, p2⟩
      · simp at h3
      · simp
    split <;> [skip; split] <;> simp only [List.length_drop] <;> omega
  · rename_i h1 _ _
    have hc0 : ¬ c0 = '/' := by simpa using h1
    simp only [ne_eq, decide_not, List.dropWhile_cons, hc0, decide_False, Bool.not_false,
      if_true, List.length_cons]
    omega

theorem cleanLoop_nil (rooted : Bool) (k : Nat) (st : CleanState) (h : st.rest = []) :
    cleanLoop rooted k st = st := by
  cases k with
  | zero => rfl
  | succ k => simp [cleanLoop, h]

theorem cleanLoop_succ (rooted : Bool) (k : Nat) (st : CleanState) (h : st.rest ≠ []) :
    cleanLoop rooted (k + 1) st = cleanLoop rooted k (cleanStep rooted st) := by
  simp [cleanLoop, h]

theorem cleanLoop_fuel (rooted : Bool) (k k2 : Nat) (st : CleanState)
    (hk : st.rest.length ≤ k) (hk2 : st.rest.length ≤ k2) :
    cleanLoop rooted k st = cleanLoop rooted k2 st := by
  induction k generalizing k2 st with
  | zero =>
    have hnil : st.rest = [] := List.length_eq_zero.mp (Nat.le_zero.mp hk)
    rw [cleanLoop_nil rooted 0 st hnil, cleanLoop_nil rooted k2 st hnil]
  | succ k ih =>
    by_cases hnil : st.rest = []
    · rw [cleanLoop_nil rooted _ st hnil, cleanLoop_nil rooted k2 st hnil]
    · have hlt := cleanStep_rest_lt rooted st hnil
      cases k2 with
      | zero =>
        exact absurd (List.length_eq_zero.mp (Nat.le_zero.mp hk2)) hnil
      | succ k2 =>
        rw [cleanLoop_succ rooted k st hnil, cleanLoop_succ rooted k2 st hnil]
        exact ih k2 _ (by omega) (by omega)

theorem cleanLoop_append (rooted : Bool) (n : Nat) :
    ∀ (a b out : List Char) (dd k : Nat), a.length ≤ n → (a ++ '/' :: b).length ≤ k →
      cleanLoop rooted k { rest := a ++ '/' :: b, out := out, dotdot := dd } =
        cleanLoop rooted (b.length + 1)
          { rest := '/' :: b,
            out := (cleanLoop rooted a.length { rest := a, out := out, dotdot := dd }).out,
            dotdot := (cleanLoop rooted a.length { rest := a, out := out, dotdot := dd }).dotdot } := by
  induction n with
  | zero =>
    intro a b out dd k ha hk
    have hnil : a = [] := List.length_eq_zero.mp (Nat.le_zero.mp ha)
    subst hnil
    have hk2 : b.length + 1 ≤ k := by simpa using hk
    exact cleanLoop_fuel rooted k (b.length + 1) { rest := '/' :: b, out := out, dotdot := dd }
      hk2 (Nat.le_refl _)
  | succ n ih =>
    intro a b out dd k ha hk
    by_cases hnil : a = []
    · subst hnil
      have hk2 : b.length + 1 ≤ k := by simpa using hk
      exact cleanLoop_fuel rooted k (b.length + 1) { rest := '/' :: b, out := out, dotdot := dd }
        hk2 (Nat.le_refl _)
    · have hlt := cleanStep_rest_lt rooted { rest := a, out := out, dotdot := dd } hnil
      simp only at hlt
      have hne : (a ++ '/' :: b) ≠ [] := by simp
      cases k with
      | zero => simp at hk
      | succ k =>
        rw [cleanLoop_succ rooted k _ hne, cleanStep_append rooted a b out dd hnil]
        rw [ih _ b _ _ k (by omega) (by
          simp only [List.length_append, List.length_cons] at hk ⊢
          omega)]
        obtain ⟨m, hm⟩ : ∃ m, a.length = m + 1 := by
          cases a with
          | nil => exact absurd rfl hnil
          | cons c a1 => exact ⟨a1.length, rfl⟩
        rw [hm, cleanLoop_succ rooted m _ hnil]
        rw [cleanLoop_fuel rooted m
          (cleanStep rooted { rest := a, out := out, dotdot := dd }).rest.length
          (cleanStep rooted { rest := a, out := out, dotdot := dd }) (by omega) (Nat.le_refl _)]

end path
end Kubelet

namespace Kubelet
namespace path

theorem cleanStep_element (rooted : Bool) (e out : List Char) (dd : Nat)
    (hne : e ≠ []) (hs : '/' ∉ e) (hd : e ≠ ['.']) (hdd : e ≠ ['.', '.']) :
    cleanStep rooted { rest := e, out := out, dotdot := dd } =
      { rest := [],
        out := (if (rooted = true ∧ out.length ≠ 1) ∨ (¬ rooted = true ∧ out.length ≠ 0)
          then out ++ ['/'] else out) ++ e,
        dotdot := dd } := by
  have htw : e.takeWhile (fun x : Char => !decide (x = '/')) = e := by
    rw [List.takeWhile_eq_self_iff]
    intro c hc
    have : c ≠ '/' := fun h => hs (h ▸ hc)
    simpa using this
  have hdw : e.dropWhile (fun x : Char => !decide (x = '/')) = [] := by
    rw [List.dropWhile_eq_nil_iff]
    intro c hc
    have : c ≠ '/' := fun h => hs (h ▸ hc)
    simpa using this
  rcases e with _ | ⟨c0, e1⟩
  · exact absurd rfl hne
  have h0 : ¬ c0 = '/' := fun h => hs (by simp [h])
  by_cases h0d : c0 = '.'
  · subst h0d
    rcases e1 with _ | ⟨c1, e2⟩
    · exact absurd rfl hd
    have h1 : ¬ c1 = '/' := fun h => hs (by simp [h])
    by_cases h1d : c1 = '.'
    · subst h1d
      rcases e2 with _ | ⟨c2, e3⟩
      · exact absurd rfl hdd
      have h2 : ¬ c2 = '/' := fun h => hs (by simp [h])
      simp only [cleanStep]
      simp [h2, htw, hdw]
    · simp only [cleanStep]
      simp [h1, h1d, htw, hdw]
  · simp only [cleanStep]
    simp [h0, h0d, htw, hdw]

theorem cleanLoop_slash_element (rooted : Bool) (e out : List Char) (dd : Nat)
    (hne : e ≠ []) (hs : '/' ∉ e) (hd : e ≠ ['.']) (hdd : e ≠ ['.', '.']) :
    cleanLoop rooted (e.length + 1) { rest := '/' :: e, out := out, dotdot := dd } =
      { rest := [],
        out := (if (rooted = true ∧ out.length ≠ 1) ∨ (¬ rooted = true ∧ out.length ≠ 0)
          then out ++ ['/'] else out) ++ e,
        dotdot := dd } := by
  have hstep : cleanStep rooted { rest := '/' :: e, out := out, dotdot := dd }
      = { rest := e, out := out, dotdot := dd } := by
    simp [cleanStep]
  obtain ⟨m, hm⟩ : ∃ m, e.length = m + 1 := by
    cases e with
    | nil => exact absurd rfl hne
    | cons c e1 => exact ⟨e1.length, rfl⟩
  rw [cleanLoop_succ rooted _ _ (by simp), hstep, hm, cleanLoop_succ rooted _ _ hne,
    cleanStep_element rooted e out dd hne hs hd hdd, cleanLoop_nil rooted _ _ rfl]

theorem CleanChars_append_element (x e : List Char) (hx : CleanChars x = x)
    (hx1 : x ≠ ['/']) (hx2 : x ≠ ['.'])
    (hne : e ≠ []) (hs : '/' ∉ e) (hd : e ≠ ['.']) (hdd : e ≠ ['.', '.']) :
    CleanChars (x ++ '/' :: e) = x ++ '/' :: e := by
  have hxne : x ≠ [] := by
    intro h
    rw [h] at hx
    simp [CleanChars] at hx
  rcases x with _ | ⟨c0, x1⟩
  · exact absurd rfl hxne
  by_cases hr : c0 = '/'
  · -- rooted
    subst hr
    have hx1ne : x1 ≠ [] := fun h => hx1 (by rw [h])
    have hfin : (cleanLoop true ('/' :: x1).length
        { rest := x1, out := ['/'], dotdot := 1 }).out = '/' :: x1 := by
      have h := hx
      simp only [CleanChars] at h
      simp only [List.head?_cons, decide_True, if_true, List.drop_succ_cons, List.drop_zero,
        reduceCtorEq, if_false] at h
      split at h
      · exact absurd h.symm (by simp)
      · exact h
    have hfin2 : (cleanLoop true x1.length
        { rest := x1, out := ['/'], dotdot := 1 }).out = '/' :: x1 := by
      rw [← hfin]
      exact congrArg CleanState.out (cleanLoop_fuel true _ _ _ (Nat.le_refl _) (by simp))
    simp only [CleanChars]
    simp only [List.cons_append, List.head?_cons, decide_True, if_true, List.drop_succ_cons,
      List.drop_zero, reduceCtorEq, if_false]
    rw [cleanLoop_append true x1.length x1 e ['/'] 1 _ (Nat.le_refl _) (by simp),
      cleanLoop_slash_element true e _ _ hne hs hd hdd, hfin2]
    have hlen : ('/' :: x1).length ≠ 1 := by
      cases x1 with
      | nil => exact absurd rfl hx1ne
      | cons c x2 => simp
    simp [hlen, hx1ne]
  · -- not rooted
    have hfin : (cleanLoop false (c0 :: x1).length
        { rest := c0 :: x1, out := [], dotdot := 0 }).out = c0 :: x1 := by
      have h := hx
      simp only [CleanChars] at h
      simp only [List.head?_cons, Option.some.injEq, hr, decide_False, Bool.false_eq_true,
        if_false, reduceCtorEq] at h
      split at h
      · exact absurd h.symm hx2
      · exact h
    simp only [CleanChars]
    simp only [List.cons_append, List.head?_cons, Option.some.injEq, hr, decide_False,
      Bool.false_eq_true, if_false, reduceCtorEq]
    have := cleanLoop_append false (c0 :: x1).length (c0 :: x1) e [] 0
      ((c0 :: x1) ++ '/' :: e).length (Nat.le_refl _) (Nat.le_refl _)
    simp only [List.cons_append] at this
    rw [this, cleanLoop_slash_element false e _ _ hne hs hd hdd, hfin]
    simp

end path
end Kubelet

/-! ## The reported artifact path -/

namespace Kubelet

namespace path

theorem data_ne_of_ne {a b : String} (h : a ≠ b) : a.data ≠ b.data :=
  fun hd => h (String.ext hd)

theorem Join_element (x e : String) (hx : Clean x = x) (hx1 : x ≠ "/") (hx2 : x ≠ ".")
    (he : isPathElement e) :
    Join x e = x ++ "/" ++ e ∧ Clean (Join x e) = Join x e ∧
      Join x e ≠ "/" ∧ Join x e ≠ "." := by
  obtain ⟨hne, hs, hd, hdd⟩ := he
  have hxd : CleanChars x.data = x.data := by
    have := congrArg String.data hx
    simpa [Clean] using this
  have hx1d : x.data ≠ ['/'] := data_ne_of_ne hx1
  have hx2d : x.data ≠ ['.'] := data_ne_of_ne hx2
  have hned : e.data ≠ [] := data_ne_of_ne hne
  have hdd1 : e.data ≠ ['.'] := data_ne_of_ne hd
  have hdd2 : e.data ≠ ['.', '.'] := data_ne_of_ne hdd
  have hxne : x.data ≠ [] := by
    intro h
    rw [h] at hxd
    simp [CleanChars] at hxd
  have hxlen : 0 < x.data.length := List.length_pos.mpr hxne
  have hmain := CleanChars_append_element x.data e.data hxd hx1d hx2d hned hs hdd1 hdd2
  have hj : JoinChars x.data e.data = x.data ++ '/' :: e.data := by
    unfold JoinChars
    have h0 : ¬ (x.data.length + e.data.length = 0) := by omega
    simp only [h0, if_false, gt_iff_lt, hxlen, true_or, if_true, List.append_assoc,
      List.singleton_append]
    exact hmain
  have hjoin : Join x e = x ++ "/" ++ e := by
    apply String.ext
    simp only [Join, hj, String.data_append]
    simp
  have hjd : (Join x e).data = x.data ++ '/' :: e.data := by
    simp [Join, hj]
  refine ⟨hjoin, ?_, ?_, ?_⟩
  · apply String.ext
    simp only [Clean, hjd]
    exact hmain
  · intro h
    have := congrArg String.data h
    rw [hjd] at this
    have hl := congrArg List.length this
    have : 0 < e.data.length := List.length_pos.mpr hned
    simp only [List.length_append, List.length_cons, List.length_nil, String.data] at hl
    omega
  · intro h
    have := congrArg String.data h
    rw [hjd] at this
    have hl := congrArg List.length this
    have : 0 < e.data.length := List.length_pos.mpr hned
    simp only [List.length_append, List.length_cons, List.length_nil, String.data] at hl
    omega

end path

theorem HandleCheckpointRequest_result (env : Peers) (req : Request) (s : State) (pod : Pod)
    (hpod : s.m.podManager (getCheckpointRequestParams req).podUID = some pod)
    (hrun : pod.Phase = v1.PodRunning)
    (hdone : env.sends ((newCheckpoint pod s).2.heap (newCheckpoint pod s).1).done = true) :
    Event.WriteAsJson (buildResult (handledRecord req s pod))
        ∈ (HandleCheckpointRequest env req s).events ∧
      ∀ r2, Event.WriteAsJson r2 ∈ (HandleCheckpointRequest env req s).events →
        r2 = buildResult (handledRecord req s pod) := by
  have hd : env.sends (s.nextChan + 1) = true := by
    simpa [newCheckpoint] using hdone
  constructor
  · rw [HandleCheckpointRequest_running env req s pod hpod hrun, if_pos hd]
    split <;> simp
  · intro r2 hr2
    rw [HandleCheckpointRequest_running env req s pod hpod hrun, if_pos hd] at hr2
    split at hr2 <;> simpa using hr2

/-- C8, refuted as stated: on a manager rooted at `/ckpt` and pod `pod1`, a
request without a `containers` parameter asks for the name `""` and is told
`/ckpt/checkpoint/pod1`, which is not `/ckpt/checkpoint/pod1/`; a request for
the name `../x` is told `/ckpt/checkpoint/x`, which is not
`/ckpt/checkpoint/pod1/../x`. -/
theorem C8_artifact_path_counterexample :
    (getCheckpointRequestParams exampleBareRequest).containerNames = [""] ∧
      Event.WriteAsJson { Containers := [("", { CheckpointPath := "/ckpt/checkpoint/pod1" })] }
        ∈ (HandleCheckpointRequest exampleEnv exampleBareRequest exampleState).events ∧
      ¬ ("/ckpt/checkpoint/pod1" = "/ckpt" ++ "/" ++ "checkpoint" ++ "/" ++ "pod1" ++ "/" ++ "") ∧
      (getCheckpointRequestParams exampleTraversalRequest).containerNames = ["../x"] ∧
      Event.WriteAsJson { Containers := [("../x", { CheckpointPath := "/ckpt/checkpoint/x" })] }
        ∈ (HandleCheckpointRequest exampleEnv exampleTraversalRequest exampleState).events ∧
      ¬ ("/ckpt/checkpoint/x"
          = "/ckpt" ++ "/" ++ "checkpoint" ++ "/" ++ "pod1" ++ "/" ++ "../x") := by
  decide

/-- C8, amended: when the configured root is a clean path other than `/` and
`.`, and the pod name is a single plain path element, the record's path is
`root/checkpoint/name`, and for every requested container name `c` that is a
single plain path element the result written after the completion signal
reports `root/checkpoint/name/c`. -/
theorem C8_artifact_path (env : Peers) (req : Request) (s : State) (root : String) (pod : Pod)
    (hroot : s.m.checkpointPath = (NewManager s.m.podManager root).checkpointPath)
    (hclean : path.Clean root = root) (hr1 : root ≠ "/") (hr2 : root ≠ ".")
    (hpod : s.m.podManager (getCheckpointRequestParams req).podUID = some pod)
    (hrun : pod.Phase = v1.PodRunning)
    (hname : isPathElement pod.Name)
    (hdone : env.sends ((newCheckpoint pod s).2.heap (newCheckpoint pod s).1).done = true) :
    ((HandleCheckpointRequest env req s).state.heap (newCheckpoint pod s).1).path
      = root ++ "/" ++ "checkpoint" ++ "/" ++ pod.Name ∧
    ∃ r : Result, Event.WriteAsJson r ∈ (HandleCheckpointRequest env req s).events ∧
      ∀ c ∈ (getCheckpointRequestParams req).containerNames, isPathElement c →
        GoMap.get r.Containers c = some
          { CheckpointPath := root ++ "/" ++ "checkpoint" ++ "/" ++ pod.Name ++ "/" ++ c } := by
  have hck : isPathElement "checkpoint" := by decide
  obtain ⟨h1, h1c, h1a, h1b⟩ := path.Join_element root "checkpoint" hclean hr1 hr2 hck
  obtain ⟨h2, h2c, h2a, h2b⟩ :=
    path.Join_element (path.Join root "checkpoint") pod.Name h1c h1a h1b hname
  have hroot2 : s.m.checkpointPath = path.Join root "checkpoint" := hroot
  obtain ⟨hmem, _⟩ := HandleCheckpointRequest_result env req s pod hpod hrun hdone
  obtain ⟨_, _, hget⟩ := buildResult_spec (handledRecord req s pod)
  have hp : (handledRecord req s pod).path = path.Join (path.Join root "checkpoint") pod.Name := by
    simp [handledRecord, hroot2]
  refine ⟨?_, buildResult (handledRecord req s pod), hmem, ?_⟩
  · rw [newCheckpoint_fst, HandleCheckpointRequest_running_heap env req s pod hpod hrun, hp,
      h2, h1]
  · intro c hc hel
    obtain ⟨h3, _, _, _⟩ :=
      path.Join_element (path.Join (path.Join root "checkpoint") pod.Name) c h2c h2a h2b hel
    have hc2 : c ∈ (handledRecord req s pod).containers := hc
    rw [hget c, if_pos hc2, hp, h3, h2, h1]

/-- C8 amended, at root `/ckpt`, pod `pod1` and `containers=a,b`. -/
theorem C8_artifact_path_witness :
    exampleState.m.checkpointPath
        = (NewManager exampleState.m.podManager "/ckpt").checkpointPath ∧
      path.Clean "/ckpt" = "/ckpt" ∧ "/ckpt" ≠ "/" ∧ "/ckpt" ≠ "." ∧
      exampleState.m.podManager (getCheckpointRequestParams exampleRequest).podUID
        = some examplePod ∧
      examplePod.Phase = v1.PodRunning ∧
      isPathElement examplePod.Name ∧
      exampleEnv.sends ((newCheckpoint examplePod exampleState).2.heap
        (newCheckpoint examplePod exampleState).1).done = true ∧
      ((HandleCheckpointRequest exampleEnv exampleRequest exampleState).state.heap
          (newCheckpoint examplePod exampleState).1).path
        = "/ckpt" ++ "/" ++ "checkpoint" ++ "/" ++ examplePod.Name :=
  ⟨rfl, by decide, by decide, by decide, by decide, by decide, by decide, by decide,
    (C8_artifact_path exampleEnv exampleRequest exampleState "/ckpt" examplePod rfl
      (by decide) (by decide) (by decide) (by decide) (by decide) (by decide) (by decide)).1⟩

end Kubelet
